import Mathlib

/-!
Verification development for `extract-summary.py` of the claude-bell
repository: a shallow embedding of the transcript-to-summary extraction
pipeline (record reader, content extractor, status classifier, query
extractor, duration calculator, summary assembler, process entry point),
followed by theorems settling the frozen claims about it.

Python strings are modelled as Lean `String` (sequences of Unicode code
points, matching Python's `len`/slicing on code points); Python dicts
decoded from JSON lines are modelled as association lists with
first-match lookup; a raised-and-uncaught Python exception is modelled
as `none`/`Except.error` in the relevant function's return type.
-/

namespace ClaudeBell

/-- A JSON value as produced by `json.loads` on one transcript line.
Numbers are modelled as integers (no claim touches float values). -/
inductive JVal where
  | null
  | bool (b : Bool)
  | num (n : Int)
  | str (s : String)
  | arr (xs : List JVal)
  | obj (o : List (String × JVal))

mutual

/-- Structural boolean equality on JSON values, used only to decide
propositional equality of the model. Python's `==` agrees with it on
every comparison the source makes against string literals; Python's
extra cross-type identifications (`True == 1`, `False == 0`) matter
only where the source hashes arbitrary values as `Counter` keys and
are modeled separately by `pyKeyEq`. -/
def beqV : JVal → JVal → Bool
  | .null, .null => true
  | .bool a, .bool b => a = b
  | .num a, .num b => a = b
  | .str a, .str b => a = b
  | .arr a, .arr b => beqL a b
  | .obj a, .obj b => beqO a b
  | _, _ => false

def beqL : List JVal → List JVal → Bool
  | [], [] => true
  | a :: as, b :: bs => beqV a b && beqL as bs
  | _, _ => false

def beqO : List (String × JVal) → List (String × JVal) → Bool
  | [], [] => true
  | (k, a) :: as, (k2, b) :: bs => k = k2 && beqV a b && beqO as bs
  | _, _ => false

end

mutual

def beqV_iff : ∀ a b : JVal, beqV a b = true ↔ a = b
  | .null, .null => by simp [beqV]
  | .bool a, .bool b => by simp [beqV]
  | .num a, .num b => by simp [beqV]
  | .str a, .str b => by simp [beqV]
  | .arr a, .arr b => by simp [beqV, beqL_iff a b]
  | .obj a, .obj b => by simp [beqV, beqO_iff a b]
  | .null, .bool _ | .null, .num _ | .null, .str _ | .null, .arr _ | .null, .obj _
  | .bool _, .null | .bool _, .num _ | .bool _, .str _ | .bool _, .arr _ | .bool _, .obj _
  | .num _, .null | .num _, .bool _ | .num _, .str _ | .num _, .arr _ | .num _, .obj _
  | .str _, .null | .str _, .bool _ | .str _, .num _ | .str _, .arr _ | .str _, .obj _
  | .arr _, .null | .arr _, .bool _ | .arr _, .num _ | .arr _, .str _ | .arr _, .obj _
  | .obj _, .null | .obj _, .bool _ | .obj _, .num _ | .obj _, .str _ | .obj _, .arr _ => by
      simp [beqV]

def beqL_iff : ∀ a b : List JVal, beqL a b = true ↔ a = b
  | [], [] => by simp [beqL]
  | [], _ :: _ => by simp [beqL]
  | _ :: _, [] => by simp [beqL]
  | a :: as, b :: bs => by
      simp [beqL, beqV_iff a b, beqL_iff as bs]

def beqO_iff : ∀ a b : List (String × JVal), beqO a b = true ↔ a = b
  | [], [] => by simp [beqO]
  | [], _ :: _ => by simp [beqO]
  | _ :: _, [] => by simp [beqO]
  | (k, a) :: as, (k2, b) :: bs => by
      simp [beqO, beqV_iff a b, beqO_iff as bs, and_assoc]

end

instance : DecidableEq JVal := fun a b => decidable_of_iff _ (beqV_iff a b)

/-- A decoded record (a Python dict): association list, first key wins. -/
abbrev Obj := List (String × JVal)

/-- Python truthiness of a JSON value (`if x:`). -/
def truthy : JVal → Bool
  | .null => false
  | .bool b => b
  | .num n => n != 0
  | .str s => s != ""
  | .arr xs => !xs.isEmpty
  | .obj o => !o.isEmpty

/-- Model of `d.get(k, default)` on a decoded dict. -/
def jGetD : Obj → String → JVal → JVal
  | [], _, d => d
  | (k, v) :: rest, key, d => if k = key then v else jGetD rest key d

/-- Python `a or b` (returns `a` when truthy, else `b`). -/
def pyOr (a b : JVal) : JVal := if truthy a then a else b

/-- Normal form for Python hashing/equality of decoded values:
`True == 1` and `False == 0` (and they hash alike), so booleans are
identified with the corresponding integers. -/
def keyNorm : JVal → JVal
  | .bool true => .num 1
  | .bool false => .num 0
  | v => v

/-- Python `==` (and hash-key identity) between hashable decoded
values, as used for `Counter` keys: structural equality up to the
boolean/integer identification. -/
def pyKeyEq (a b : JVal) : Bool := keyNorm a = keyNorm b

/-- The character set stripped by `str.strip()` (ASCII whitespace). -/
def isPyWs (c : Char) : Bool :=
  c = ' ' || c = '\t' || c = '\n' || c = '\x0d' || c = '\x0b' || c = '\x0c'

/-- Model of `str.strip()` on the character list. -/
def stripL (cs : List Char) : List Char :=
  ((cs.dropWhile isPyWs).reverse.dropWhile isPyWs).reverse

/-- Model of `str.strip()`. -/
def pyStrip (s : String) : String := ⟨stripL s.data⟩

/-- Model of `str.lower()` (adequate for the ASCII pattern literals used here;
CJK characters are unchanged by both Python and this model). -/
def pyLower (s : String) : String := ⟨s.data.map Char.toLower⟩

/-- Substring occurrence test on character lists. -/
def containsSub (pat : List Char) : List Char → Bool
  | [] => pat.isPrefixOf ([] : List Char)
  | c :: cs => pat.isPrefixOf (c :: cs) || containsSub pat cs

/-- Case-insensitive substring test: `re.search(pat, s, re.IGNORECASE)`
for a pattern that is a literal (no regex metacharacters). -/
def ciContains (pat s : String) : Bool :=
  containsSub (pyLower pat).data (pyLower s).data

/-- Model of `s[:n] + ('...' if len(s) > n else '')`. -/
def capDots (n : Nat) (s : String) : String :=
  if n < s.data.length then (⟨s.data.take n⟩ : String) ++ "..." else s

/-! ## Content Extractor (`extract_text_from_content`) -/

/-- Gather the `text` fields of `type == "text"` blocks of a content list.
Returns `none` when the gathered list would make `'\n'.join(texts)` raise
`TypeError` (a truthy non-string `text` payload): that exception is not
caught anywhere in the program. Non-dict elements are skipped. -/
def textBlocks : List JVal → Option (List String)
  | [] => some []
  | .obj it :: rest =>
      if jGetD it "type" .null = .str "text" then
        let t := jGetD it "text" (.str "")
        if truthy t then
          match t with
          | .str s => (textBlocks rest).map (s :: ·)
          | _ => none
        else textBlocks rest
      else textBlocks rest
  | _ :: rest => textBlocks rest

/-- Model of `extract_text_from_content`: a string is returned unchanged, a list is
reduced to its text blocks joined by newlines, anything else yields `""`.
`none` models the uncaught `TypeError` of joining a non-string block. -/
def extract_text_from_content : JVal → Option String
  | .str s => some s
  | .arr xs => (textBlocks xs).map (String.intercalate "\n")
  | _ => some ""

/-! ## Pattern matching (`ERROR_PATTERNS`, `ACTION_PATTERNS`)

All `ERROR_PATTERNS` entries and four of the five `ACTION_PATTERNS`
entries are regex-metacharacter-free literals, so `re.search(p, c,
re.IGNORECASE)` is a case-insensitive substring test. The remaining
pattern `需要.*确认` needs `需要` followed by `确认` with no newline in
between (`.` does not match `\n`). -/

def ERROR_PATTERNS : List String :=
  ["API Error", "Error:", "403", "401", "500", "failed", "失败",
   "forbidden", "unauthorized", "timeout", "connection refused",
   "/login", "permission denied"]

/-- Does the content match any entry of `ERROR_PATTERNS`? -/
def errAny (c : String) : Bool := ERROR_PATTERNS.any (fun p => ciContains p c)

/-- Model of `re.search('需要.*确认', c, re.IGNORECASE)` as an existence test. -/
def needConfirm : List Char → Bool
  | [] => false
  | c :: cs =>
      (['需', '要'].isPrefixOf (c :: cs) &&
        containsSub ['确', '认'] ((cs.drop 1).takeWhile (fun ch => ch ≠ '\n')))
      || needConfirm cs

/-- Does the content match any entry of `ACTION_PATTERNS`
(`['please run', '请运行', '需要.*确认', 'waiting for', 'approve']`)? -/
def actionAny (c : String) : Bool :=
  ciContains "please run" c || ciContains "请运行" c || needConfirm c.data ||
    ciContains "waiting for" c || ciContains "approve" c

/-! ## Python `str()` of a decoded JSON value (used on `tool_output`) -/

/-- Escapes applied inside Python `repr` of a string (the cases that can
arise here; other characters are kept verbatim). -/
def reprEscape (c : Char) : List Char :=
  if c = '\\' then ['\\', '\\']
  else if c = '\'' then ['\\', '\'']
  else if c = '\n' then ['\\', 'n']
  else if c = '\x0d' then ['\\', 'r']
  else if c = '\t' then ['\\', 't']
  else [c]

mutual

/-- Python `repr` of a decoded JSON value. -/
def pyRepr : JVal → String
  | .null => "None"
  | .bool true => "True"
  | .bool false => "False"
  | .num n => toString n
  | .str s => ⟨'\'' :: (s.data.flatMap reprEscape) ++ ['\'']⟩
  | .arr xs => "[" ++ pyReprArr xs ++ "]"
  | .obj o => "\x7b" ++ pyReprObj o ++ "\x7d"

def pyReprArr : List JVal → String
  | [] => ""
  | [x] => pyRepr x
  | x :: xs => pyRepr x ++ ", " ++ pyReprArr xs

def pyReprObj : List (String × JVal) → String
  | [] => ""
  | [(k, v)] => pyRepr (.str k) ++ ": " ++ pyRepr v
  | (k, v) :: kvs => pyRepr (.str k) ++ ": " ++ pyRepr v ++ ", " ++ pyReprObj kvs

end

/-- Python `str()` of a decoded JSON value. -/
def pyStr : JVal → String
  | .str s => s
  | v => pyRepr v

/-! ## Status Classifier (`detect_status`)

The source first walks the record list backwards to find the last user
record with meaningful nested content (the anchor), then scans
`messages[start_idx:]` in reverse. We mirror this with `msgs.reverse`:
the reversed suffix `reversed(messages[start_idx:])` equals
`msgs.reverse.take (d + 1)` where `d` is the anchor's distance from the
end of the list. `none` anywhere models an uncaught exception. -/

/-- The anchor test applied to one record: `type == 'user'` and the
nested `message.content` (only that path) extracts to a string whose
stripped length exceeds 3. A non-dict `message` never extracts. -/
def isMeaningful (m : Obj) : Option Bool :=
  if jGetD m "type" .null = .str "user" then
    match jGetD m "message" (.obj []) with
    | .obj mo => do
        let c ← extract_text_from_content (jGetD mo "content" (.str ""))
        pure (decide (c ≠ "") && decide ((stripL c.data).length > 3))
    | _ => some false
  else some false

/-- Distance-from-the-end of the last meaningful user record: the input
is `messages` reversed, the result is `some (some d)` when the first
meaningful record of the reversed list sits at position `d`,
`some none` when there is none, `none` on an uncaught exception. -/
def lmuRev : List Obj → Option (Option Nat)
  | [] => some none
  | m :: rest => do
      let b ← isMeaningful m
      if b then pure (some 0)
      else do
        let r ← lmuRev rest
        pure (r.map (· + 1))

/-- Model of `messages[start_idx:]` with `start_idx = max(0,
last_meaningful_user_idx)`, in original order. -/
def windowOf (msgs : List Obj) : Option (List Obj) :=
  (lmuRev msgs.reverse).map fun a =>
    match a with
    | some d => (msgs.reverse.take (d + 1)).reverse
    | none => msgs

/-- The dual-path content extraction used for assistant and user records:
nested `message.content` first, then the legacy direct `content` field. -/
def dualContent (m : Obj) : Option String := do
  let c1 ← match jGetD m "message" (.obj []) with
    | .obj mo => extract_text_from_content (jGetD mo "content" (.str ""))
    | _ => pure ""
  if c1 = "" then extract_text_from_content (jGetD m "content" (.str ""))
  else pure c1

/-- One iteration of the classification scan: `some (some r)` classifies
as `r` and stops, `some none` skips to the previous record, `none` is an
uncaught exception. Flag checks come before any content extraction. -/
def scanStep (m : Obj) : Option (Option String) :=
  if truthy (jGetD m "isApiErrorMessage" .null) then some (some "error")
  else if truthy (jGetD m "error" .null) then some (some "error")
  else
    let t := jGetD m "type" (.str "")
    let oc : Option String :=
      if t = .str "assistant" then dualContent m
      else if t = .str "tool_result" then
        some (pyStr (pyOr (jGetD m "tool_output" (.str "")) (jGetD m "content" (.str ""))))
      else if t = .str "user" then dualContent m
      else some ""
    match oc with
    | none => none
    | some c =>
        if c = "" then some none
        else if errAny c then some (some "error")
        else if actionAny c then some (some "action_needed")
        else some none

/-- The reverse scan over the window (input already reversed):
first classification wins, exhaustion means `success`. -/
def scanRev : List Obj → Option String
  | [] => some "success"
  | m :: rest =>
      match scanStep m with
      | none => none
      | some (some r) => some r
      | some none => scanRev rest

/-- Model of `detect_status`: anchor search, then reverse scan of the suffix. -/
def detect_status (msgs : List Obj) : Option String := do
  let w ← windowOf msgs
  scanRev w.reverse

/-! ## Query Extractor (`extract_user_query`) -/

/-- The control-acknowledgement tokens skipped by the query extractor. -/
def skip_commands : List String :=
  ["ultrawork", "continue", "ok", "yes", "no", "y", "n",
   "继续", "好的", "是", "好", "可以", "确认", "嗯", "行",
   "go", "next", "done", "thanks", "谢谢", "感谢"]

/-- The reverse walk of `extract_user_query` (input already reversed).
The content extraction (nested `message.content` first, then the legacy
`content` field) is textually the same dual-path sequence as in the
classifier, shared here as `dualContent`. -/
def euqGo : List Obj → Option String
  | [] => some ""
  | m :: rest =>
      if jGetD m "type" .null = .str "user" then do
        let content ← dualContent m
        if content = "" then euqGo rest
        else
          let cs := pyStrip content
          let cl := pyLower cs
          if cl ∈ skip_commands then euqGo rest
          else if cs.data.length < 5 then euqGo rest
          else if cs ∈ (["...", "。。。", "???", "！！！"] : List String) then euqGo rest
          else
            let firstLine := pyStrip ⟨cs.data.takeWhile (fun ch => ch ≠ '\n')⟩
            if firstLine.data.length > 5 then pure (capDots 80 firstLine)
            else pure (capDots 80 cs)
      else euqGo rest

/-- Model of `extract_user_query`: last meaningful user-authored text, filtered
and truncated to 80 characters plus an ellipsis marker. -/
def extract_user_query (msgs : List Obj) : Option String := euqGo msgs.reverse

/-! ## Duration Calculator (`calculate_duration`)

`datetime.fromisoformat` is modelled by `parseIso`, accepting
`YYYY-MM-DD[*HH[:MM[:SS[.fff|.ffffff]]]][+HH:MM|-HH:MM]` with range
validation, the strict format of the Python version the source targets
(it pre-replaces `'Z'` with `'+00:00'` before parsing). A parsed
timestamp is (microseconds on a proleptic-Gregorian day count, optional
UTC-offset seconds); subtracting an offset-aware and an offset-naive
timestamp raises, which the source's bare `except` turns into `""`. -/

def digitVal (c : Char) : Option Nat :=
  if c.isDigit then some (c.toNat - 48) else none

def read2 : List Char → Option (Nat × List Char)
  | a :: b :: rest => do pure ((← digitVal a) * 10 + (← digitVal b), rest)
  | _ => none

def read4 : List Char → Option (Nat × List Char)
  | a :: b :: c :: d :: rest => do
      pure (((← digitVal a) * 10 + (← digitVal b)) * 100 +
        ((← digitVal c) * 10 + (← digitVal d)), rest)
  | _ => none

def isLeap (y : Nat) : Bool := (y % 4 = 0 && y % 100 ≠ 0) || y % 400 = 0

def daysInMonth (y m : Nat) : Nat :=
  if m = 2 then (if isLeap y then 29 else 28)
  else if m = 4 || m = 6 || m = 9 || m = 11 then 30
  else 31

/-- Day count of a valid civil date (years 1..9999), counted from
0000-03-01; only differences of the result are ever used. -/
def civilDays (y m d : Nat) : Nat :=
  let yAdj := if m ≤ 2 then y - 1 else y
  let era := yAdj / 400
  let yoe := yAdj % 400
  let mp := (m + 9) % 12
  let doy := (153 * mp + 2) / 5 + (d - 1)
  let doe := yoe * 365 + yoe / 4 - yoe / 100 + doy
  era * 146097 + doe

/-- A parsed timestamp: naive microseconds plus an optional offset. -/
structure TS where
  us : Int
  off : Option Int
  deriving DecidableEq

/-- Parse the optional fractional-second part (exactly 3 or 6 digits),
returning microseconds. -/
def parseFrac : List Char → Option (Nat × List Char)
  | '.' :: rest =>
      let digs := rest.takeWhile Char.isDigit
      let rest2 := rest.drop digs.length
      let v := digs.foldl (fun acc c => acc * 10 + (c.toNat - 48)) 0
      if digs.length = 3 then some (v * 1000, rest2)
      else if digs.length = 6 then some (v, rest2)
      else none
  | cs => some (0, cs)

/-- Parse the optional `±HH:MM` offset, returning offset seconds. -/
def parseOffset : List Char → Option (Option Int × List Char)
  | [] => some (none, [])
  | sign :: rest =>
      if sign = '+' || sign = '-' then do
        let (oh, r1) ← read2 rest
        match r1 with
        | ':' :: r2 => do
            let (om, r3) ← read2 r2
            if oh ≤ 23 && om ≤ 59 then
              let secs : Int := (oh * 3600 + om * 60 : Nat)
              pure (some (if sign = '-' then -secs else secs), r3)
            else none
        | _ => none
      else none

/-- Parse the optional time-of-day part `HH[:MM[:SS[.frac]]]`,
returning (seconds-in-day, microseconds) and the rest. -/
def parseTime (cs : List Char) : Option (Nat × Nat × List Char) := do
  let (hh, r1) ← read2 cs
  if hh > 23 then none
  else
    match r1 with
    | ':' :: r2 => do
        let (mm, r3) ← read2 r2
        if mm > 59 then none
        else
          match r3 with
          | ':' :: r4 => do
              let (ss, r5) ← read2 r4
              if ss > 59 then none
              else do
                let (frac, r6) ← parseFrac r5
                pure (hh * 3600 + mm * 60 + ss, frac, r6)
          | r4 => pure (hh * 3600 + mm * 60, 0, r4)
    | r2 => pure (hh * 3600, 0, r2)

/-- Model of `datetime.fromisoformat` (the strict classic format). -/
def parseIso (s : String) : Option TS := do
  let (y, r1) ← read4 s.data
  match r1 with
  | '-' :: r2 => do
      let (mo, r3) ← read2 r2
      match r3 with
      | '-' :: r4 => do
          let (d, r5) ← read2 r4
          if y < 1 || mo < 1 || mo > 12 || d < 1 || d > daysInMonth y mo then none
          else
            let days := civilDays y mo d
            match r5 with
            | [] => pure ⟨(days * 86400 : Nat) * 1000000, none⟩
            | _ :: r6 => do
                let (secs, frac, r7) ← parseTime r6
                let (off, r8) ← parseOffset r7
                if r8.isEmpty then
                  pure ⟨((days * 86400 + secs : Nat) * 1000000 + frac : Nat), off⟩
                else none
      | _ => none
  | _ => none

/-- Model of `str.replace('Z', '+00:00')` (every occurrence). -/
def replaceZ : List Char → List Char
  | [] => []
  | c :: cs =>
      if c = 'Z' then '+' :: '0' :: '0' :: ':' :: '0' :: '0' :: replaceZ cs
      else c :: replaceZ cs

/-- Computes `end - start` in microseconds; `none` models the `TypeError` of
mixing offset-aware and offset-naive datetimes. -/
def tsDiffUs (endT startT : TS) : Option Int :=
  match endT.off, startT.off with
  | some oe, some os => some ((endT.us - oe * 1000000) - (startT.us - os * 1000000))
  | none, none => some (endT.us - startT.us)
  | _, _ => none

/-- Model of `int(timedelta.total_seconds())`: truncation toward zero. -/
def truncSecs (us : Int) : Int :=
  if 0 ≤ us then (us.toNat / 1000000 : Nat) else -((-us).toNat / 1000000 : Nat)

/-- Distance-from-the-end of the last record with `type == 'user'`
(no content requirement), over the reversed record list. -/
def lastUserRev : List Obj → Option Nat
  | [] => none
  | m :: rest =>
      if jGetD m "type" .null = .str "user" then some 0
      else (lastUserRev rest).map (· + 1)

/-- The `{m}分{s}秒` / `{s}秒` rendering of a second count `5 ≤ n`. -/
def fmtDuration (n : Nat) : String :=
  let minutes := n / 60
  let seconds := n % 60
  if minutes > 0 then toString minutes ++ "分" ++ toString seconds ++ "秒"
  else toString seconds ++ "秒"

/-- Elapsed whole seconds from the last user record to the final record:
`none` when either timestamp is falsy, is not a string, fails
`fromisoformat`, or the two mix offset-aware and offset-naive. -/
def elapsedSecs (msgs : List Obj) : Option Int := do
  let d ← lastUserRev msgs.reverse
  let ts1 := jGetD ((msgs.reverse.drop d).headD []) "timestamp" (.str "")
  let ts2 := jGetD (msgs.reverse.headD []) "timestamp" (.str "")
  if truthy ts1 && truthy ts2 then
    match ts1, ts2 with
    | .str a, .str b => do
        let startT ← parseIso ⟨replaceZ a.data⟩
        let endT ← parseIso ⟨replaceZ b.data⟩
        let us ← tsDiffUs endT startT
        pure (truncSecs us)
    | _, _ => none
  else none

/-- Model of `calculate_duration`: total (the source wraps its body in a bare
`try`/`except` that returns `""`). -/
def calculate_duration (msgs : List Obj) : String :=
  if msgs.length < 2 then ""
  else
    match elapsedSecs msgs with
    | none => ""
    | some n =>
        if n < 0 || n > 3600 then ""
        else if n < 5 then ""
        else fmtDuration n.toNat

/-! ## Error-message extraction (`get_error_message`) -/

/-- Model of `re.search(r'(API Error[^\n]*|Error:[^\n]*|403[^\n]*|failed[^\n]*)',
content, re.IGNORECASE)`: at the leftmost position where one of the four
literals matches case-insensitively, the group captures from there to
the end of the line (every alternative ends in `[^\n]*`). -/
def errCapture : List Char → Option (List Char)
  | [] => none
  | c :: cs =>
      let here := c :: cs
      let low := here.map Char.toLower
      if ("api error".data.isPrefixOf low || "error:".data.isPrefixOf low ||
          "403".data.isPrefixOf low || "failed".data.isPrefixOf low) then
        some (here.takeWhile (fun ch => ch ≠ '\n'))
      else errCapture cs

/-- The content considered by the error-message scan for one record:
assistant records via the dual path, tool-result records via
`str(tool_output or content)`, anything else contributes nothing. -/
def gemContent (m : Obj) : Option String :=
  let t := jGetD m "type" (.str "")
  if t = .str "assistant" then dualContent m
  else if t = .str "tool_result" then
    some (pyStr (pyOr (jGetD m "tool_output" (.str "")) (jGetD m "content" (.str ""))))
  else some ""

/-- The reverse walk of `get_error_message` (input already reversed). -/
def gemGo : List Obj → Option String
  | [] => some ""
  | m :: rest => do
      let c ← gemContent m
      if c = "" then gemGo rest
      else
        match errCapture c.data with
        | some cap => pure ⟨cap.take 80⟩
        | none => gemGo rest

/-- Model of `get_error_message`: scan the last 10 records most-recent-first for
a captured error substring, capped to 80 characters. -/
def get_error_message (msgs : List Obj) : Option String :=
  gemGo ((msgs.drop (msgs.length - 10)).reverse)

/-! ## Record Reader (`parse_transcript`) -/

/-- One physical line of the transcript file, abstracted to its
`json.loads` outcome: blank after stripping, decode failure, or the
decoded value. -/
inductive PLine where
  | blank
  | bad
  | good (v : JVal)
  deriving DecidableEq

/-- The reader's in-loop accumulators. The source keeps the modified
files in a Python `set` (arbitrary iteration order); we model it as an
insertion-ordered deduplicated list, which fixes one order. -/
structure PState where
  messages : List Obj
  tools_used : List (JVal × Nat)
  files_modified : List String
  bash_commands : List JVal
  deriving DecidableEq

def emptyPState : PState := ⟨[], [], [], []⟩

/-- Model of `Counter[key] += 1` on the association-list counter: keys
are compared with Python `==` (`pyKeyEq`), so `True` and `1` share one
entry, whose stored key is the first-inserted one, as in Python. -/
def bumpCounter : List (JVal × Nat) → JVal → List (JVal × Nat)
  | [], k => [(k, 1)]
  | (k2, n) :: rest, k =>
      if pyKeyEq k2 k then (k2, n + 1) :: rest else (k2, n) :: bumpCounter rest k

/-- Model of `dict.get(key, 0)` on the counter (Python `==` on keys). -/
def countOf : List (JVal × Nat) → JVal → Nat
  | [], _ => 0
  | (k2, n) :: rest, k => if pyKeyEq k2 k then n else countOf rest k

/-- Model of `set.add` as insertion-ordered deduplication. -/
def addSet (xs : List String) (x : String) : List String :=
  if x ∈ xs then xs else xs ++ [x]

/-- Model of `Path(p).name`: the last path component, with empty and `.`
components dropped (POSIX paths). -/
def pathName (p : String) : String :=
  match ((p.data.splitOn '/').filter
      (fun part => part ≠ [] ∧ part ≠ ['.'])).getLast? with
  | some part => ⟨part⟩
  | none => ""

/-- The modified-files update for one `tool_use` record: `Path()` over a
non-string raises (`Except.error`). -/
def filesStep (tool_name : JVal) (ti : Obj) (files : List String) : Except String (List String) :=
  let fp := pyOr (jGetD ti "file_path" .null) (jGetD ti "path" .null)
  if truthy fp ∧ (tool_name = .str "Edit" ∨ tool_name = .str "Write") then
    match fp with
    | .str s => .ok (addSet files (pathName s))
    | _ => .error "argument should be a str"
  else .ok files

/-- The shell-command update for one `tool_use` record: `cmd[:50]`
slices strings and lists (JSON arrays) successfully, appending the
sliced value, and raises `TypeError` for numbers, booleans and dicts
(truthy non-sliceable values). -/
def bashStep (tool_name : JVal) (ti : Obj) (cmds : List JVal) : Except String (List JVal) :=
  if tool_name = .str "Bash" then
    let cmd := jGetD ti "command" (.str "")
    if truthy cmd then
      match cmd with
      | .str s => .ok (cmds ++ [.str (⟨s.data.take 50⟩ : String)])
      | .arr xs => .ok (cmds ++ [.arr (xs.take 50)])
      | _ => .error "not subscriptable"
    else .ok cmds
  else .ok cmds

/-- Processing of one decoded line inside the reader's `try` block.
`Except.error` models any exception raised there (caught by the outer
handler, which turns the whole read into an error dict): `.get` on a
non-dict value, an unhashable `tool_name` used as a `Counter` key,
`Path()` over a non-string, or slicing a non-string command. -/
def lineStep (st : PState) (v : JVal) : Except String PState :=
  match v with
  | .obj m =>
      let t := jGetD m "type" (.str "")
      if t = .str "tool_use" then
        let tool_name := jGetD m "tool_name" (.str "unknown")
        match tool_name with
        | .arr _ => .error "unhashable type"
        | .obj _ => .error "unhashable type"
        | _ =>
          match jGetD m "tool_input" (.obj []) with
          | .obj ti =>
              match filesStep tool_name ti st.files_modified with
              | .error e => .error e
              | .ok files =>
                  match bashStep tool_name ti st.bash_commands with
                  | .error e => .error e
                  | .ok cmds =>
                      .ok ⟨st.messages ++ [m], bumpCounter st.tools_used tool_name, files, cmds⟩
          | _ =>
              .ok ⟨st.messages ++ [m], bumpCounter st.tools_used tool_name,
                st.files_modified, st.bash_commands⟩
      else .ok { st with messages := st.messages ++ [m] }
  | _ => .error "no attribute get"

/-- The reader's line loop: blank and undecodable lines are skipped,
decoded lines go through `lineStep`, and a raised exception aborts the
loop with the error dict. -/
def foldLines : List PLine → PState → Except String PState
  | [], st => .ok st
  | .blank :: rest, st => foldLines rest st
  | .bad :: rest, st => foldLines rest st
  | .good v :: rest, st =>
      match lineStep st v with
      | .error e => .error e
      | .ok st2 => foldLines rest st2

/-- The state of the file at the transcript path. -/
inductive FileState where
  | absent
  | unreadable
  | content (lines : List PLine)
  deriving DecidableEq

/-- The dict returned by `parse_transcript`: either the error dict from
the `except` handler, or the full result. -/
inductive ParseDict where
  | err (e : String)
  | ok (messages : List Obj) (tools_used : List (JVal × Nat))
      (files_modified : List String) (bash_commands : List JVal)
      (total_messages : Nat) (status : String)
  deriving DecidableEq

/-- Model of `parse_transcript`: open the file, run the line loop, then build
the result dict; the `detect_status` call sits outside the `try`, so an
exception it raises escapes the function (`none`). -/
def parse_transcript (f : FileState) : Option ParseDict :=
  match f with
  | .absent => some (.err "No such file or directory")
  | .unreadable => some (.err "Permission denied")
  | .content lines =>
      match foldLines lines emptyPState with
      | .error e => some (.err e)
      | .ok st =>
          (detect_status st.messages).map fun status =>
            .ok st.messages st.tools_used (st.files_modified.take 5)
              (st.bash_commands.take 3) st.messages.length status

/-! ## Summary Assembler (`generate_summary`) and entry point (`main`) -/

/-- Lookup in the result dict returned by `generate_summary`
(`result[k]`, raising `KeyError` when absent). -/
def assocS : List (String × String) → String → Option String
  | [], _ => none
  | (k2, v) :: rest, k => if k2 = k then some v else assocS rest k

/-- Model of `result.get(k, d)`. -/
def assocSD (l : List (String × String)) (k d : String) : String :=
  (assocS l k).getD d

/-- Model of `generate_summary`: assembles the final dict. The reader-failure
branch returns a dict whose keys are `status` and `summary` (not
`query`), exactly as in the source. `none` models an uncaught exception
from the classifier, query extractor or error-message extractor. -/
def generate_summary (f : FileState) : Option (List (String × String)) := do
  let data ← parse_transcript f
  match data with
  | .err _ => pure [("status", "success"), ("summary", "任务完成")]
  | .ok messages tools _ _ _ status => do
      let query ← extract_user_query messages
      if status = "error" then do
        let error_msg ← get_error_message messages
        let short_query := if query ≠ "" then capDots 60 query else ""
        pure [("status", "error"),
              ("query", if short_query ≠ "" then short_query else "任务执行出错"),
              ("stats", if error_msg ≠ "" then error_msg else "")]
      else if status = "action_needed" then
        let short_query := if query ≠ "" then capDots 60 query else "需要用户操作"
        pure [("status", "action_needed"), ("query", short_query), ("stats", "")]
      else
        let edit_count := countOf tools (.str "Edit") + countOf tools (.str "Write")
        let bash_count := countOf tools (.str "Bash")
        let read_count := countOf tools (.str "Read")
        let duration := calculate_duration messages
        let stats_parts :=
          (if edit_count > 0 then ["改" ++ toString edit_count ++ "文件"] else []) ++
          (if bash_count > 0 then ["执行" ++ toString bash_count ++ "命令"] else []) ++
          (if read_count > 0 then ["读" ++ toString read_count ++ "文件"] else []) ++
          (if duration ≠ "" then ["耗时" ++ duration] else [])
        let stats := if stats_parts ≠ [] then " · ".intercalate stats_parts else ""
        let short_query := if query ≠ "" then capDots 60 query else "任务完成"
        pure [("status", "success"), ("query", short_query), ("stats", stats)]

/-- The process environment seen by `main`: the first command-line
argument if any, the decode of the stdin payload (`none` when
`json.loads` fails on it), and the file system. -/
structure Env where
  argv1 : Option String
  stdinJson : Option JVal
  fs : String → FileState

/-- The fixed fallback output line. -/
def fallbackLine : String := "success|任务完成|"

/-- The transcript path `main` resolves before the existence check. The
`except` around the stdin read absorbs both a failed decode and the
`AttributeError` of `.get` on a non-dict payload, leaving `''`. -/
def resolvedPath (e : Env) : JVal :=
  match e.argv1 with
  | some p => .str p
  | none =>
      match e.stdinJson with
      | some (.obj o) => jGetD o "transcript_path" (.str "")
      | _ => .str ""

/-- Model of `main`, as the single line printed on stdout: `none` means the
process died on an uncaught exception (non-zero exit, nothing printed).
`Path(x)` over a non-string resolved path also raises uncaught. -/
def mainLine (e : Env) : Option String :=
  let v := resolvedPath e
  if truthy v then
    match v with
    | .str p =>
        if e.fs p = .absent then some fallbackLine
        else do
          let result ← generate_summary (e.fs p)
          let status ← assocS result "status"
          let query ← assocS result "query"
          pure (status ++ "|" ++ query ++ "|" ++ assocSD result "stats" "")
    | _ => none
  else some fallbackLine

/-! ## Spec-side definition for the anchor claim (C4)

The claim states the anchor test consults both the nested
`message.content` path and the legacy direct `content` field. -/

/-- Modelled from the spec's words for comparison with `isMeaningful`:
the dual-path meaningful-user test the claim describes. -/
def isMeaningfulSpec (m : Obj) : Option Bool :=
  if jGetD m "type" .null = .str "user" then do
    let c ← dualContent m
    pure (decide (c ≠ "") && decide ((stripL c.data).length > 3))
  else some false

/-- The claim's anchor search (distance from the end, over the reversed
list), using the dual-path test. -/
def lmuRevSpec : List Obj → Option (Option Nat)
  | [] => some none
  | m :: rest => do
      let b ← isMeaningfulSpec m
      if b then pure (some 0)
      else do
        let r ← lmuRevSpec rest
        pure (r.map (· + 1))

/-! ## Concrete records and transcripts used by the claim theorems -/

/-- A user record in the nested `message.content` format. -/
def userMsg (s : String) : Obj :=
  [("type", .str "user"), ("message", .obj [("content", .str s)])]

/-- An assistant record in the nested `message.content` format. -/
def asstMsg (s : String) : Obj :=
  [("type", .str "assistant"), ("message", .obj [("content", .str s)])]

/-- A `tool_use` record. -/
def toolUse (name : String) (inp : List (String × JVal)) : Obj :=
  [("type", .str "tool_use"), ("tool_name", .str name), ("tool_input", .obj inp)]

/-- An assistant record carrying only the API-error flag. -/
def flaggedMsg : Obj := [("type", .str "assistant"), ("isApiErrorMessage", .bool true)]

/-- A user record carrying its text only in the legacy direct `content`
field (no nested `message` object). -/
def legacyUserMsg : Obj := [("type", .str "user"), ("content", .str "please fix this bug")]

/-- C1 failing environment: the transcript path is given on the command
line and names a file that exists but cannot be opened. -/
def envC1 : Env := ⟨some "/tmp/transcript.jsonl", none, fun _ => .unreadable⟩

/-- C3 counterexample transcript: a meaningful user record, then a
flagged record, then an assistant record matching an action pattern. -/
def exC3 : List Obj := [userMsg "do the big task", flaggedMsg, asstMsg "please run npm install"]

/-- C3 witness transcript: the flagged record is the most recent one. -/
def exC3w : List Obj := [userMsg "do the big task", flaggedMsg]

/-- C4 counterexample transcript: an assistant error record followed by
a legacy-content-only user record. -/
def exC4 : List Obj := [asstMsg "API Error: boom", legacyUserMsg]

/-- C4 witness input (a reversed record list): a non-meaningful record
in front of a meaningful user record. -/
def exC4w : List Obj := [asstMsg "done", userMsg "fix the login bug"]

/-- C5 counterexample transcript: classified as error through the
`timeout` pattern, which the error-message extraction cannot capture. -/
def exC5 : List Obj := [userMsg "run the task now", asstMsg "request timeout"]

/-- C5 witness transcript: the last record carries a capturable error. -/
def exC5w : List Obj := [userMsg "run it", asstMsg "API Error: 403 Forbidden\nmore text"]

/-- C6 counterexample transcript lines: error status via `timeout`, no
capturable error message. -/
def exC6 : List PLine :=
  [.good (.obj (userMsg "run the build now")), .good (.obj (asstMsg "connection timeout"))]

/-- C7 counterexample transcript: one user record whose first line is 81
characters long. -/
def exC7 : List Obj := [userMsg ⟨List.replicate 81 'a'⟩]

/-- The query the code extracts from `exC7`. -/
def qC7 : String := (⟨List.replicate 80 'a'⟩ : String) ++ "..."

/-- C8 witness transcript: 75 elapsed seconds. -/
def exC8 : List Obj :=
  [[("type", .str "user"), ("timestamp", .str "2024-01-01T10:00:00Z")],
   [("type", .str "assistant"), ("timestamp", .str "2024-01-01T10:01:15Z")]]

/-- C9 witness transcript lines: two Edit invocations, one undecodable
line, a Bash invocation with a string command and one with a JSON-array
command (which `cmd[:50]` slices successfully). -/
def exC9 : List PLine :=
  [.good (.obj (toolUse "Edit" [("file_path", .str "/a/b.py")])),
   .bad,
   .good (.obj (toolUse "Edit" [("file_path", .str "/a/c.py")])),
   .good (.obj (toolUse "Bash" [("command", .str "ls -la")])),
   .good (.obj (toolUse "Bash" [("command", .arr [.str "ls", .str "-la"])]))]

/-- The record sequence decoded from `exC9`. -/
def msgsC9 : List Obj :=
  [toolUse "Edit" [("file_path", .str "/a/b.py")],
   toolUse "Edit" [("file_path", .str "/a/c.py")],
   toolUse "Bash" [("command", .str "ls -la")],
   toolUse "Bash" [("command", .arr [.str "ls", .str "-la"])]]

/-- C10 witness record: a `tool_use` whose shell command contains the
word `failed`. -/
def exC10m : Obj := toolUse "Bash" [("command", .str "echo failed > /tmp/x")]

/-- Is this record a `tool_use` record whose tool name (default
`'unknown'`) is Python-equal to `w`? Used to state the counting
claim. -/
def isToolUseNamed (m : Obj) (w : JVal) : Bool :=
  decide (jGetD m "type" (.str "") = .str "tool_use") &&
    pyKeyEq (jGetD m "tool_name" (.str "unknown")) w

/-! ## Claim theorems -/

/-- Claim C1 (code bug): the claim says every invocation exits with code
0 and prints exactly one line, the fallback line when the path is
missing, unreadable or the stdin payload malformed. The code violates
this: when the path exists but opening it fails, `generate_summary`
returns the dict `{'status': ..., 'summary': ...}` (key `summary`, not
`query`), so `main`'s `result['query']` raises an uncaught `KeyError`
and the process dies printing nothing: `mainLine envC1 = none`. -/
theorem C1_reader_failure_key_mismatch :
    generate_summary FileState.unreadable =
      some [("status", "success"), ("summary", "任务完成")] ∧
    mainLine envC1 = none := by
  constructor
  · rfl
  · rfl

/-- Claim C3 counterexample: the window of `exC3` is all of `exC3` and
contains a record with `isApiErrorMessage = true`, yet `detect_status`
returns `action_needed`, because a record after the flagged one matches
an action pattern and the scan is most-recent-first. -/
theorem C3_counterexample :
    truthy (jGetD flaggedMsg "isApiErrorMessage" .null) = true ∧
    windowOf exC3 = some exC3 ∧
    detect_status exC3 = some "action_needed" := by
  refine ⟨rfl, ?_, ?_⟩ <;> rfl

/-- Claim C4 counterexample: in `exC4` the record at index 1 is a user
record that is meaningful under the claim's dual-path test (the claim's
anchor search finds it at distance 0 from the end), but the code's
anchor search, which only consults the nested `message.content` path,
finds no anchor, so the window falls back to the whole sequence and the
earlier assistant error is classified. -/
theorem C4_counterexample :
    lmuRevSpec exC4.reverse = some (some 0) ∧
    lmuRev exC4.reverse = some none ∧
    detect_status exC4 = some "error" := by
  refine ⟨?_, ?_, ?_⟩ <;> rfl

/-- Claim C5 counterexample: `exC5` is classified `error` (through the
`timeout` pattern of the classifier family), but the error-message
extraction, whose regex only covers `API Error`, `Error:`, `403` and
`failed`, returns the empty string instead of the marker substring. -/
theorem C5_counterexample :
    detect_status exC5 = some "error" ∧
    get_error_message exC5 = some "" := by
  exact ⟨rfl, rfl⟩

/-- Claim C6 counterexample: a transcript classified `error` with no
capturable error message yields `stats = ""`, not a non-empty fixed
generic error string (the generic string `任务执行出错` is used for the
`query` field only when the extracted query is empty, which is not the
case here). -/
theorem C6_counterexample :
    generate_summary (.content exC6) =
      some [("status", "error"), ("query", "run the build now"), ("stats", "")] := by
  rfl

/-- Claim C7 counterexample: the query extracted from `exC7` is
non-empty and has 83 characters (80 plus the 3-character ellipsis
marker), so the claimed bound of 80 is violated. -/
theorem C7_counterexample :
    extract_user_query exC7 = some qC7 ∧ qC7.data.length = 83 := by
  exact ⟨rfl, rfl⟩

/-- The line loop ignores every undecodable line. -/
theorem foldLines_filter_bad (lines : List PLine) (st : PState) :
    foldLines lines st = foldLines (lines.filter (fun l => l ≠ PLine.bad)) st := by
  induction lines generalizing st with
  | nil => rfl
  | cons l rest ih =>
    cases l with
    | blank => exact ih st
    | bad => exact ih st
    | good v =>
        show (match lineStep st v with
          | .error e => Except.error e
          | .ok st2 => foldLines rest st2) = _
        have hf : (PLine.good v :: rest).filter (fun l => l ≠ PLine.bad) =
            PLine.good v :: rest.filter (fun l => l ≠ PLine.bad) := rfl
        rw [hf]
        cases h : lineStep st v with
        | error e => simp only [foldLines, h]
        | ok st2 => simp only [foldLines, h]; exact ih st2

/-- Inserting one undecodable line anywhere leaves the line loop
unchanged. -/
theorem foldLines_mid_bad (l1 l2 : List PLine) (st : PState) :
    foldLines (l1 ++ PLine.bad :: l2) st = foldLines (l1 ++ l2) st := by
  induction l1 generalizing st with
  | nil => rfl
  | cons l rest ih =>
    cases l with
    | blank => exact ih st
    | bad => exact ih st
    | good v =>
        show (match lineStep st v with
          | .error e => Except.error e
          | .ok st2 => foldLines (rest ++ PLine.bad :: l2) st2) = _
        cases h : lineStep st v with
        | error e => simp only [foldLines, List.cons_append, h]
        | ok st2 => simp only [foldLines, List.cons_append, h]; exact ih st2

/-- Claim C2: for every transcript file that can be opened, a non-blank
line whose decode fails is dropped and processing continues: the
reader's result over any line list equals its result with all
undecodable lines removed (record sequence and aggregates are built
from the successfully decoded lines alone), and inserting a single
undecodable line anywhere never changes the result, in particular it
never aborts the reader or produces the read-failure dict. -/
theorem C2_undecodable_lines_dropped :
    (∀ lines : List PLine,
      parse_transcript (.content lines) =
        parse_transcript (.content (lines.filter (fun l => l ≠ PLine.bad)))) ∧
    ∀ l1 l2 : List PLine,
      parse_transcript (.content (l1 ++ PLine.bad :: l2)) =
        parse_transcript (.content (l1 ++ l2)) := by
  constructor
  · intro lines
    simp only [parse_transcript]
    rw [foldLines_filter_bad lines emptyPState]
  · intro l1 l2
    simp only [parse_transcript]
    rw [foldLines_mid_bad l1 l2 emptyPState]

/-- Incrementing the counter at `k` raises exactly the count of every
key Python-equal to `k`, by one. -/
theorem countOf_bumpCounter (l : List (JVal × Nat)) (k w : JVal) :
    countOf (bumpCounter l k) w = countOf l w + (if pyKeyEq k w then 1 else 0) := by
  induction l with
  | nil =>
      simp only [bumpCounter, countOf]
      split <;> simp_all [countOf]
  | cons p rest ih =>
      obtain ⟨k2, n⟩ := p
      by_cases h : pyKeyEq k2 k
      · have hkk : keyNorm k2 = keyNorm k := by simpa [pyKeyEq] using h
        by_cases hw : pyKeyEq k2 w
        · have hkw : pyKeyEq k w = true := by
            simp only [pyKeyEq, decide_eq_true_eq] at hw ⊢
            rw [← hkk]; exact hw
          simp [bumpCounter, countOf, h, hw, hkw]
        · have hkw : ¬ pyKeyEq k w = true := by
            intro hc
            apply hw
            simp only [pyKeyEq, decide_eq_true_eq] at hc ⊢
            rw [hkk]; exact hc
          simp [bumpCounter, countOf, h, hw, hkw]
      · by_cases hw : pyKeyEq k2 w
        · have hww : keyNorm k2 = keyNorm w := by simpa [pyKeyEq] using hw
          have hkw : ¬ pyKeyEq k w = true := by
            intro hc
            apply h
            simp only [pyKeyEq, decide_eq_true_eq] at hc ⊢
            rw [hww, ← hc]
          simp [bumpCounter, countOf, h, hw, hkw]
        · simp [bumpCounter, countOf, h, hw, ih]

/-- A successful `lineStep` appends exactly one record and bumps the
tool counter exactly for a `tool_use` record's tool name. -/
theorem lineStep_ok (st st2 : PState) (v : JVal) (h : lineStep st v = .ok st2) :
    ∃ m, v = .obj m ∧ st2.messages = st.messages ++ [m] ∧
      ∀ w, countOf st2.tools_used w =
        countOf st.tools_used w + (if isToolUseNamed m w then 1 else 0) := by
  cases v with
  | obj m =>
      refine ⟨m, rfl, ?_⟩
      by_cases ht : jGetD m "type" (.str "") = .str "tool_use"
      · simp only [lineStep, ht, if_pos] at h
        have key : st2.messages = st.messages ++ [m] ∧
            st2.tools_used = bumpCounter st.tools_used (jGetD m "tool_name" (.str "unknown")) := by
          cases htn : jGetD m "tool_name" (.str "unknown") with
          | arr xs => rw [htn] at h; exact absurd h (by simp)
          | obj o => rw [htn] at h; exact absurd h (by simp)
          | null | bool b | num n | str s =>
            all_goals (
              rw [htn] at h
              simp only at h
              repeat' split at h
              all_goals first
                | (injection h with h2; rw [← h2]; exact ⟨rfl, rfl⟩)
                | exact absurd h (by simp))
        refine ⟨key.1, fun w => ?_⟩
        rw [key.2, countOf_bumpCounter]
        congr 1
        simp [isToolUseNamed, ht]
      · simp only [lineStep, ht, if_neg, if_false] at h
        injection h with h2
        rw [← h2]
        refine ⟨rfl, fun w => ?_⟩
        simp [isToolUseNamed, ht]
  | null | bool b | num n | str s | arr xs =>
      all_goals exact absurd h (by simp [lineStep])

/-- A successful line loop appends the decoded records and counts every
`tool_use` record among them. -/
theorem foldLines_count (lines : List PLine) (st st2 : PState)
    (h : foldLines lines st = .ok st2) (w : JVal) :
    ∃ added, st2.messages = st.messages ++ added ∧
      countOf st2.tools_used w = countOf st.tools_used w +
        (added.filter (fun m => isToolUseNamed m w)).length := by
  induction lines generalizing st with
  | nil =>
      injection h with h2
      exact ⟨[], by rw [h2]; simp⟩
  | cons l rest ih =>
    cases l with
    | blank => exact ih st h
    | bad => exact ih st h
    | good v =>
        have hfold : (match lineStep st v with
            | .error e => Except.error e
            | .ok stm => foldLines rest stm) = .ok st2 := h
        cases hs : lineStep st v with
        | error e => rw [hs] at hfold; exact absurd hfold (by simp)
        | ok stm =>
            rw [hs] at hfold
            obtain ⟨m, _, hmsg, hcount⟩ := lineStep_ok st stm v hs
            obtain ⟨added, hmsg2, hcount2⟩ := ih stm hfold
            refine ⟨m :: added, ?_, ?_⟩
            · rw [hmsg2, hmsg]; simp
            · rw [hcount2, hcount w, List.filter_cons]
              by_cases hw : isToolUseNamed m w
              · simp [hw]; omega
              · simp [hw]

/-- Claim C9: for every transcript that parses successfully, the
per-tool invocation counts equal the true number of `tool_use` records
per tool name over the whole decoded record sequence, while the exposed
modified-file list is truncated to at most 5 entries and the exposed
command list to at most 3; truncation never affects the counters. -/
theorem C9_tool_counts_exact (lines : List PLine) (msgs : List Obj)
    (tools : List (JVal × Nat)) (fm : List String) (bc : List JVal)
    (tm : Nat) (st : String) (w : JVal)
    (h : parse_transcript (.content lines) = some (.ok msgs tools fm bc tm st)) :
    countOf tools w = (msgs.filter (fun m => isToolUseNamed m w)).length ∧
    fm.length ≤ 5 ∧ bc.length ≤ 3 := by
  have hp : (match foldLines lines emptyPState with
      | .error e => some (ParseDict.err e)
      | .ok st0 => (detect_status st0.messages).map fun status =>
          ParseDict.ok st0.messages st0.tools_used (st0.files_modified.take 5)
            (st0.bash_commands.take 3) st0.messages.length status) =
      some (.ok msgs tools fm bc tm st) := h
  cases hf : foldLines lines emptyPState with
  | error e => rw [hf] at hp; exact absurd hp (by simp)
  | ok st0 =>
      have hp2 : (detect_status st0.messages).map (fun status =>
          ParseDict.ok st0.messages st0.tools_used (st0.files_modified.take 5)
            (st0.bash_commands.take 3) st0.messages.length status) =
          some (.ok msgs tools fm bc tm st) := by rw [hf] at hp; exact hp
      cases hd : detect_status st0.messages with
      | none => rw [hd] at hp2; exact absurd hp2 (by simp)
      | some status =>
          rw [hd] at hp2
          simp only [Option.map_some'] at hp2
          injection hp2 with hp3
          cases hp3
          obtain ⟨added, hmsg, hcount⟩ := foldLines_count lines emptyPState st0 hf w
          have hadded : st0.messages = added := by simpa [emptyPState] using hmsg
          refine ⟨?_, List.length_take_le _ _, List.length_take_le _ _⟩
          rw [← hadded] at hcount
          simpa [emptyPState, countOf] using hcount

/-- Witness for C9 at a concrete five-line transcript (two Edit
invocations, one undecodable line, two Bash invocations, one of them
with an array command). -/
theorem C9_tool_counts_exact_witness :
    countOf [(JVal.str "Edit", 2), (JVal.str "Bash", 2)] (.str "Edit") =
      (msgsC9.filter (fun m => isToolUseNamed m (.str "Edit"))).length ∧
    (["b.py", "c.py"] : List String).length ≤ 5 ∧
    ([JVal.str "ls -la", .arr [.str "ls", .str "-la"]] : List JVal).length ≤ 3 :=
  C9_tool_counts_exact exC9 msgsC9 [(JVal.str "Edit", 2), (JVal.str "Bash", 2)]
    ["b.py", "c.py"] [JVal.str "ls -la", .arr [.str "ls", .str "-la"]] 4 "success"
    (.str "Edit") (by rfl)

/-- A record with a truthy API-error flag or a truthy `error` field is
classified `error` by the scan before its content is even extracted. -/
theorem scanStep_flagged (m : Obj)
    (h : truthy (jGetD m "isApiErrorMessage" .null) = true ∨
      truthy (jGetD m "error" .null) = true) :
    scanStep m = some (some "error") := by
  rcases h with h | h
  · simp [scanStep, h]
  · by_cases h1 : truthy (jGetD m "isApiErrorMessage" .null) = true
    · simp [scanStep, h1]
    · simp [scanStep, h1, h]

/-- A prefix of records that each either skip or classify `error`
either yields `error` outright or passes control to the rest. -/
theorem scanRev_skip_or_error (xs ys : List Obj)
    (h : ∀ x ∈ xs, scanStep x = some none ∨ scanStep x = some (some "error")) :
    scanRev (xs ++ ys) = some "error" ∨ scanRev (xs ++ ys) = scanRev ys := by
  induction xs with
  | nil => exact Or.inr rfl
  | cons x rest ih =>
      rcases h x (by simp) with hx | hx
      · have hstep : scanRev ((x :: rest) ++ ys) = scanRev (rest ++ ys) := by
          simp only [List.cons_append, scanRev, hx]
          rfl
        rw [hstep]
        exact ih (fun y hy => h y (by simp [hy]))
      · left
        simp only [List.cons_append, scanRev, hx]

/-- Claim C3 (amended): if some record of the classification window has
`isApiErrorMessage` truthy or a truthy `error` field, `detect_status`
returns `error` regardless of that record's own text content, provided
no record after it in the window would classify as `action_needed`
(records after it that skip or classify `error` are fine); without that
proviso the most-recent-first scan can return `action_needed` first. -/
theorem C3_flagged_record_forces_error (msgs l1 l2 : List Obj) (m : Obj)
    (hw : windowOf msgs = some (l1 ++ m :: l2))
    (hf : truthy (jGetD m "isApiErrorMessage" .null) = true ∨
      truthy (jGetD m "error" .null) = true)
    (hl2 : ∀ x ∈ l2, scanStep x = some none ∨ scanStep x = some (some "error")) :
    detect_status msgs = some "error" := by
  have e1 : detect_status msgs =
      Option.bind (windowOf msgs) (fun w => scanRev w.reverse) := rfl
  rw [e1, hw]
  have e2 : Option.bind (some (l1 ++ m :: l2)) (fun w => scanRev w.reverse) =
      scanRev ((l1 ++ m :: l2).reverse) := rfl
  rw [e2]
  have hrev : (l1 ++ m :: l2).reverse = l2.reverse ++ (m :: l1.reverse) := by
    simp
  rw [hrev]
  have hmem : ∀ x ∈ l2.reverse, scanStep x = some none ∨ scanStep x = some (some "error") :=
    fun x hx => hl2 x (List.mem_reverse.mp hx)
  rcases scanRev_skip_or_error l2.reverse (m :: l1.reverse) hmem with hres | hres
  · exact hres
  · rw [hres]
    simp only [scanRev, scanStep_flagged m hf]

/-- Witness for C3 (amended): the flagged record is the most recent
record of the window, so the classification is `error`. -/
theorem C3_flagged_record_forces_error_witness :
    detect_status exC3w = some "error" :=
  C3_flagged_record_forces_error exC3w [userMsg "do the big task"] [] flaggedMsg
    (by rfl) (Or.inl rfl) (by simp)

/-- If a key does not hold `.str s` under the `""` default, it does not
hold it under the `null` default either (for non-empty `s`). -/
theorem jGetD_null_ne_of_default_ne (m : Obj) (k s : String)
    (h : jGetD m k (.str "") ≠ .str s) : jGetD m k .null ≠ .str s := by
  induction m with
  | nil => simp [jGetD]
  | cons p rest ih =>
      obtain ⟨k2, v⟩ := p
      by_cases hk : k2 = k
      · simp only [jGetD, hk, if_pos] at h ⊢
        exact h
      · simp only [jGetD, hk, if_neg, if_false] at h ⊢
        exact ih h

/-- A record whose type is not `user` is never the anchor. -/
theorem isMeaningful_of_type_ne_user (m : Obj)
    (h : jGetD m "type" (.str "") ≠ .str "user") : isMeaningful m = some false := by
  have hn := jGetD_null_ne_of_default_ne m "type" "user" h
  simp [isMeaningful, hn]

/-- A record that is not assistant/user/tool-result and has falsy flags
is skipped by the classification scan. -/
theorem scanStep_skip (m : Obj)
    (ht : jGetD m "type" (.str "") ∉
      ([.str "assistant", .str "user", .str "tool_result"] : List JVal))
    (h1 : truthy (jGetD m "isApiErrorMessage" .null) = false)
    (h2 : truthy (jGetD m "error" .null) = false) :
    scanStep m = some none := by
  have hta : jGetD m "type" (.str "") ≠ .str "assistant" := fun hc => ht (by rw [hc]; simp)
  have htu : jGetD m "type" (.str "") ≠ .str "user" := fun hc => ht (by rw [hc]; simp)
  have htr : jGetD m "type" (.str "") ≠ .str "tool_result" := fun hc => ht (by rw [hc]; simp)
  simp [scanStep, h1, h2, hta, htu, htr]

/-- Inserting a non-anchoring record shifts the anchor distance exactly
past the insertion point. -/
theorem lmuRev_mid (m : Obj) (hm : isMeaningful m = some false) (a b : List Obj) :
    lmuRev (a ++ m :: b) =
      (lmuRev (a ++ b)).map (Option.map fun d => if d < a.length then d else d + 1) := by
  induction a with
  | nil =>
      simp only [List.nil_append, lmuRev, hm]
      cases hr : lmuRev b with
      | none => rfl
      | some r =>
          cases r with
          | none => rfl
          | some d => simp
  | cons x rest ih =>
      simp only [List.cons_append, lmuRev]
      cases hx : isMeaningful x with
      | none => rfl
      | some bx =>
          cases bx with
          | true =>
              show some (some 0) =
                Option.map (Option.map fun d => if d < (x :: rest).length then d else d + 1)
                  (some (some 0))
              simp
          | false =>
              show Option.bind (lmuRev (rest ++ m :: b)) (fun r => some (r.map (· + 1))) =
                Option.map (Option.map fun d => if d < (x :: rest).length then d else d + 1)
                  (Option.bind (lmuRev (rest ++ b)) (fun r => some (r.map (· + 1))))
              rw [ih]
              cases hr : lmuRev (rest ++ b) with
              | none => rfl
              | some r =>
                  cases r with
                  | none => rfl
                  | some d =>
                      show some (some ((if d < rest.length then d else d + 1) + 1)) =
                        some (some (if d + 1 < rest.length + 1 then d + 1 else d + 1 + 1))
                      by_cases hd : d < rest.length
                      · have h2 : d + 1 < rest.length + 1 := by omega
                        rw [if_pos hd, if_pos h2]
                      · have h2 : ¬ (d + 1 < rest.length + 1) := by omega
                        rw [if_neg hd, if_neg h2]

/-- Inserting a skipped record anywhere leaves the scan unchanged. -/
theorem scanRev_mid (m : Obj) (hm : scanStep m = some none) (a b : List Obj) :
    scanRev (a ++ m :: b) = scanRev (a ++ b) := by
  induction a with
  | nil => simp only [List.nil_append, scanRev, hm]
  | cons x rest ih =>
      simp only [List.cons_append, scanRev]
      cases hx : scanStep x with
      | none => rfl
      | some o => cases o <;> simp [ih]

/-- Claim C10: a record whose type is not `assistant`, `user` or
`tool_result` (for example a `tool_use` record) contributes no text to
the classification scan: when its API-error flag and `error` field are
falsy the scan skips it, and inserting such a record anywhere in the
record sequence — even one whose `tool_input` shell command contains
the word `failed` — never changes the classification. -/
theorem C10_non_text_records_inert (m : Obj) (l1 l2 : List Obj)
    (ht : jGetD m "type" (.str "") ∉
      ([.str "assistant", .str "user", .str "tool_result"] : List JVal))
    (h1 : truthy (jGetD m "isApiErrorMessage" .null) = false)
    (h2 : truthy (jGetD m "error" .null) = false) :
    scanStep m = some none ∧
    detect_status (l1 ++ m :: l2) = detect_status (l1 ++ l2) := by
  have hskip := scanStep_skip m ht h1 h2
  have htu : jGetD m "type" (.str "") ≠ .str "user" := fun hc => ht (by rw [hc]; simp)
  have hmean := isMeaningful_of_type_ne_user m htu
  refine ⟨hskip, ?_⟩
  have e1 : detect_status (l1 ++ m :: l2) =
      Option.bind (windowOf (l1 ++ m :: l2)) (fun w => scanRev w.reverse) := rfl
  have e2 : detect_status (l1 ++ l2) =
      Option.bind (windowOf (l1 ++ l2)) (fun w => scanRev w.reverse) := rfl
  rw [e1, e2, windowOf, windowOf]
  have hrev : (l1 ++ m :: l2).reverse = l2.reverse ++ m :: l1.reverse := by simp
  have hrev2 : (l1 ++ l2).reverse = l2.reverse ++ l1.reverse := by simp
  rw [hrev, hrev2, lmuRev_mid m hmean]
  cases hr : lmuRev (l2.reverse ++ l1.reverse) with
  | none => rfl
  | some r =>
      cases r with
      | none =>
          show scanRev (l1 ++ m :: l2).reverse = scanRev (l1 ++ l2).reverse
          rw [hrev, hrev2]
          exact scanRev_mid m hskip l2.reverse l1.reverse
      | some d =>
          by_cases hd : d < l2.reverse.length
          · show scanRev (((l2.reverse ++ m :: l1.reverse).take
                ((if d < l2.reverse.length then d else d + 1) + 1)).reverse).reverse =
              scanRev (((l2.reverse ++ l1.reverse).take (d + 1)).reverse).reverse
            rw [if_pos hd]
            have hle : d + 1 ≤ l2.reverse.length := hd
            rw [List.take_append_of_le_length hle, List.take_append_of_le_length hle]
          · show scanRev (((l2.reverse ++ m :: l1.reverse).take
                ((if d < l2.reverse.length then d else d + 1) + 1)).reverse).reverse =
              scanRev (((l2.reverse ++ l1.reverse).take (d + 1)).reverse).reverse
            rw [if_neg hd]
            push_neg at hd
            obtain ⟨j, rfl⟩ : ∃ j, d = l2.reverse.length + j :=
              ⟨d - l2.reverse.length, by omega⟩
            have hlen1 : l2.reverse.length ≤ l2.reverse.length + j + 1 + 1 := by omega
            have hlen2 : l2.reverse.length ≤ l2.reverse.length + j + 1 := by omega
            have hx1 : (l2.reverse ++ m :: l1.reverse).take (l2.reverse.length + j + 1 + 1) =
                l2.reverse ++ m :: l1.reverse.take (j + 1) := by
              rw [List.take_append_eq_append_take, List.take_of_length_le hlen1]
              have harith : l2.reverse.length + j + 1 + 1 - l2.reverse.length = j + 2 := by
                omega
              rw [harith, List.take_succ_cons]
            have hx2 : (l2.reverse ++ l1.reverse).take (l2.reverse.length + j + 1) =
                l2.reverse ++ l1.reverse.take (j + 1) := by
              rw [List.take_append_eq_append_take, List.take_of_length_le hlen2]
              have harith : l2.reverse.length + j + 1 - l2.reverse.length = j + 1 := by
                omega
              rw [harith]
            rw [hx1, hx2, List.reverse_reverse, List.reverse_reverse]
            exact scanRev_mid m hskip l2.reverse (l1.reverse.take (j + 1))

/-- Witness for C10: inserting a `tool_use` record whose shell command
contains `failed` does not change the classification. -/
theorem C10_non_text_records_inert_witness :
    scanStep exC10m = some none ∧
    detect_status ([userMsg "fix the login bug"] ++ exC10m :: [asstMsg "all done"]) =
      detect_status ([userMsg "fix the login bug"] ++ [asstMsg "all done"]) :=
  C10_non_text_records_inert exC10m [userMsg "fix the login bug"] [asstMsg "all done"]
    (by decide) rfl rfl

/-- Claim C4 (amended): the anchor is the last (greatest-index) user
record whose NESTED `message.content` path normalizes to stripped
length > 3; the legacy direct `content` field is not consulted by the
anchor search, so a user record whose text lives only there never
anchors (its `message` defaults to the empty dict, which extracts to
the empty string), and the window then falls back to an earlier anchor
or to the whole sequence. -/
theorem C4_anchor_nested_path_only :
    (∀ (rms : List Obj) (d : Nat), lmuRev rms = some (some d) →
      ∃ pre mA post, rms = pre ++ mA :: post ∧ pre.length = d ∧
        isMeaningful mA = some true ∧ ∀ x ∈ pre, isMeaningful x = some false) ∧
    ∀ m : Obj, jGetD m "message" (.obj []) = .obj [] → isMeaningful m = some false := by
  constructor
  · intro rms
    induction rms with
    | nil => intro d h; exact absurd h (by simp [lmuRev])
    | cons x rest ih =>
        intro d h
        simp only [lmuRev] at h
        cases hx : isMeaningful x with
        | none => rw [hx] at h; exact absurd h (by simp)
        | some bx =>
            rw [hx] at h
            cases bx with
            | true =>
                have h2 : (some (some 0) : Option (Option Nat)) = some (some d) := h
                have hd : d = 0 := by
                  injection h2 with h3
                  injection h3 with h4
                  exact h4.symm
                exact ⟨[], x, rest, by simp, by simp [hd], hx, by simp⟩
            | false =>
                have h2 : ((lmuRev rest).bind fun r => some (r.map (· + 1))) =
                    some (some d) := h
                cases hr : lmuRev rest with
                | none => rw [hr] at h2; exact absurd h2 (by simp)
                | some r =>
                    rw [hr] at h2
                    cases r with
                    | none => exact absurd h2 (by simp)
                    | some dr =>
                        have h3 : some (some (dr + 1)) = some (some d) := h2
                        injection h3 with h4
                        injection h4 with h5
                        obtain ⟨pre, mA, post, hsplit, hlen, hmA, hpre⟩ := ih dr hr
                        refine ⟨x :: pre, mA, post, by rw [hsplit]; rfl, ?_, hmA, ?_⟩
                        · simp [hlen, ← h5]
                        · intro y hy
                          rcases List.mem_cons.mp hy with hy | hy
                          · rw [hy]; exact hx
                          · exact hpre y hy
  · intro m hm
    by_cases htype : jGetD m "type" .null = .str "user"
    · simp [isMeaningful, htype, hm, jGetD, extract_text_from_content]
    · simp [isMeaningful, htype]

/-- Witness for C4 (amended): a two-record reversed list whose anchor
sits at distance 1, plus a legacy-content-only record that the anchor
test rejects. -/
theorem C4_anchor_nested_path_only_witness :
    (∃ pre mA post, exC4w = pre ++ mA :: post ∧ pre.length = 1 ∧
      isMeaningful mA = some true ∧ ∀ x ∈ pre, isMeaningful x = some false) ∧
    isMeaningful legacyUserMsg = some false :=
  ⟨C4_anchor_nested_path_only.1 exC4w 1 (by rfl),
   C4_anchor_nested_path_only.2 legacyUserMsg (by rfl)⟩

/-- The reverse scan never returns more than 80 characters. -/
theorem gemGo_length_le (l : List Obj) (r : String) (h : gemGo l = some r) :
    r.data.length ≤ 80 := by
  induction l with
  | nil =>
      injection h with h2
      rw [← h2]
      simp
  | cons m rest ih =>
      cases hgc : gemContent m with
      | none =>
          rw [show gemGo (m :: rest) = (gemContent m).bind (fun cc =>
            if cc = "" then gemGo rest
            else match errCapture cc.data with
              | some cp => some (⟨cp.take 80⟩ : String)
              | none => gemGo rest) from rfl, hgc] at h
          exact absurd h (by simp)
      | some c =>
          rw [show gemGo (m :: rest) = (gemContent m).bind (fun cc =>
            if cc = "" then gemGo rest
            else match errCapture cc.data with
              | some cp => some (⟨cp.take 80⟩ : String)
              | none => gemGo rest) from rfl, hgc, Option.some_bind] at h
          by_cases hce : c = ""
          · rw [if_pos hce] at h; exact ih h
          · rw [if_neg hce] at h
            cases hcap : errCapture c.data with
            | none => rw [hcap] at h; exact ih h
            | some cap =>
                rw [hcap] at h
                injection h with h2
                rw [← h2]
                exact List.length_take_le 80 cap

/-- Unfolding of the substring test on a cons cell. -/
theorem containsSub_cons (pat : List Char) (y : Char) (ys : List Char) :
    containsSub pat (y :: ys) = (pat.isPrefixOf (y :: ys) || containsSub pat ys) := rfl

/-- A capture implies a case-insensitive occurrence of one of the four
extraction literals. -/
theorem errCapture_contains (cs cap : List Char) (h : errCapture cs = some cap) :
    containsSub ("api error".data) (cs.map Char.toLower) = true ∨
    containsSub ("error:".data) (cs.map Char.toLower) = true ∨
    containsSub ("403".data) (cs.map Char.toLower) = true ∨
    containsSub ("failed".data) (cs.map Char.toLower) = true := by
  induction cs with
  | nil => exact absurd h (by simp [errCapture])
  | cons c rest ih =>
      simp only [errCapture] at h
      split at h
      · rename_i hcond
        rcases Bool.or_eq_true_iff.mp hcond with hcond | hd
        rcases Bool.or_eq_true_iff.mp hcond with hcond | hc
        rcases Bool.or_eq_true_iff.mp hcond with ha | hb
        · refine Or.inl ?_
          rw [List.map_cons, containsSub_cons]
          rw [List.map_cons] at ha
          rw [ha]
          simp
        · refine Or.inr (Or.inl ?_)
          rw [List.map_cons, containsSub_cons]
          rw [List.map_cons] at hb
          rw [hb]
          simp
        · refine Or.inr (Or.inr (Or.inl ?_))
          rw [List.map_cons, containsSub_cons]
          rw [List.map_cons] at hc
          rw [hc]
          simp
        · refine Or.inr (Or.inr (Or.inr ?_))
          rw [List.map_cons, containsSub_cons]
          rw [List.map_cons] at hd
          rw [hd]
          simp
      · rcases ih h with h4 | h4 | h4 | h4
        · exact Or.inl (by rw [List.map_cons, containsSub_cons, h4]; simp)
        · exact Or.inr (Or.inl (by rw [List.map_cons, containsSub_cons, h4]; simp))
        · exact Or.inr (Or.inr (Or.inl
            (by rw [List.map_cons, containsSub_cons, h4]; simp)))
        · exact Or.inr (Or.inr (Or.inr
            (by rw [List.map_cons, containsSub_cons, h4]; simp)))

/-- Claim C5 (amended): the error-message extraction scans exactly the
last 10 records (the dropped suffix), most recent first, over assistant
and tool-result text, matching only the four-pattern subfamily
`API Error`, `Error:`, `403`, `failed` (case-insensitive) — not the
full classifier family of 4.3: (1) the scanned window is the at most 10
trailing records in most-recent-first order; (2) the first scanned
record with a capture determines the result, the capture running from
the match to the end of the line and capped to 80 characters; (3) when
every scanned record's text yields no capture the result is the empty
string; (4) content containing none of the four literals — e.g. only
`401`, `500`, `timeout`, `unauthorized` or `permission denied` — never
captures; and (5) the result never exceeds 80 characters. -/
theorem C5_error_extraction_four_patterns :
    (∀ msgs : List Obj,
      get_error_message msgs = gemGo ((msgs.drop (msgs.length - 10)).reverse) ∧
      (msgs.drop (msgs.length - 10)).length ≤ 10) ∧
    (∀ (l1 : List Obj) (m : Obj) (l2 : List Obj) (c : String) (cap : List Char),
      (∀ x ∈ l1, ∃ cx, gemContent x = some cx ∧ errCapture cx.data = none) →
      gemContent m = some c → errCapture c.data = some cap →
      gemGo (l1 ++ m :: l2) = some ⟨cap.take 80⟩) ∧
    (∀ l : List Obj,
      (∀ x ∈ l, ∃ cx, gemContent x = some cx ∧ errCapture cx.data = none) →
      gemGo l = some "") ∧
    (∀ s : String,
      ¬ (ciContains "API Error" s = true ∨ ciContains "Error:" s = true ∨
        ciContains "403" s = true ∨ ciContains "failed" s = true) →
      errCapture s.data = none) ∧
    (∀ (msgs : List Obj) (r : String), get_error_message msgs = some r →
      r.data.length ≤ 80) := by
  refine ⟨?_, ?_, ?_, ?_, ?_⟩
  · intro msgs
    refine ⟨rfl, ?_⟩
    rw [List.length_drop]
    omega
  · intro l1
    induction l1 with
    | nil =>
        intro m l2 c cap _ hc hcap
        have hc_ne : c ≠ "" := by
          intro he
          rw [he] at hcap
          exact absurd hcap (by simp [errCapture])
        show ((gemContent m).bind fun cc =>
            if cc = "" then gemGo l2
            else match errCapture cc.data with
              | some cp => some (⟨cp.take 80⟩ : String)
              | none => gemGo l2) = some ⟨cap.take 80⟩
        rw [hc]
        show (if c = "" then gemGo l2
            else match errCapture c.data with
              | some cp => some (⟨cp.take 80⟩ : String)
              | none => gemGo l2) = some ⟨cap.take 80⟩
        rw [if_neg hc_ne, hcap]
    | cons x l1t ih =>
        intro m l2 c cap hl1 hc hcap
        obtain ⟨cx, hcx, hcxnone⟩ := hl1 x (by simp)
        have hrest := ih m l2 c cap (fun y hy => hl1 y (by simp [hy])) hc hcap
        show ((gemContent x).bind fun cc =>
            if cc = "" then gemGo (l1t ++ m :: l2)
            else match errCapture cc.data with
              | some cp => some (⟨cp.take 80⟩ : String)
              | none => gemGo (l1t ++ m :: l2)) = some ⟨cap.take 80⟩
        rw [hcx]
        show (if cx = "" then gemGo (l1t ++ m :: l2)
            else match errCapture cx.data with
              | some cp => some (⟨cp.take 80⟩ : String)
              | none => gemGo (l1t ++ m :: l2)) = some ⟨cap.take 80⟩
        by_cases hcxe : cx = ""
        · rw [if_pos hcxe]; exact hrest
        · rw [if_neg hcxe, hcxnone]; exact hrest
  · intro l
    induction l with
    | nil => intro _; rfl
    | cons x rest ih =>
        intro hall
        obtain ⟨cx, hcx, hcxnone⟩ := hall x (by simp)
        have hrest := ih (fun y hy => hall y (by simp [hy]))
        show ((gemContent x).bind fun cc =>
            if cc = "" then gemGo rest
            else match errCapture cc.data with
              | some cp => some (⟨cp.take 80⟩ : String)
              | none => gemGo rest) = some ""
        rw [hcx]
        show (if cx = "" then gemGo rest
            else match errCapture cx.data with
              | some cp => some (⟨cp.take 80⟩ : String)
              | none => gemGo rest) = some ""
        by_cases hcxe : cx = ""
        · rw [if_pos hcxe]; exact hrest
        · rw [if_neg hcxe, hcxnone]; exact hrest
  · intro s hnot
    cases hcap : errCapture s.data with
    | none => rfl
    | some cap =>
        exfalso
        apply hnot
        have ea : ciContains "API Error" s =
            containsSub ("api error".data) (s.data.map Char.toLower) := rfl
        have eb : ciContains "Error:" s =
            containsSub ("error:".data) (s.data.map Char.toLower) := rfl
        have ec : ciContains "403" s =
            containsSub ("403".data) (s.data.map Char.toLower) := rfl
        have ed : ciContains "failed" s =
            containsSub ("failed".data) (s.data.map Char.toLower) := rfl
        rcases errCapture_contains s.data cap hcap with h4 | h4 | h4 | h4
        · exact Or.inl (by rw [ea]; exact h4)
        · exact Or.inr (Or.inl (by rw [eb]; exact h4))
        · exact Or.inr (Or.inr (Or.inl (by rw [ec]; exact h4)))
        · exact Or.inr (Or.inr (Or.inr (by rw [ed]; exact h4)))
  · intro msgs r h
    exact gemGo_length_le _ r h

/-- Witness for C5 (amended): on `exC5w` (a user record, then an
assistant record carrying `API Error: 403 Forbidden` followed by a
newline) the most-recent-first scan captures the first line; and the
classifier marker `request timeout` alone yields no capture. -/
theorem C5_error_extraction_four_patterns_witness :
    get_error_message exC5w = some ⟨("API Error: 403 Forbidden".data).take 80⟩ ∧
    errCapture ("request timeout" : String).data = none := by
  constructor
  · have h1 := (C5_error_extraction_four_patterns.1 exC5w).1
    have h2 := C5_error_extraction_four_patterns.2.1 []
      (asstMsg "API Error: 403 Forbidden\nmore text") [userMsg "run it"]
      "API Error: 403 Forbidden\nmore text" ("API Error: 403 Forbidden".data)
      (by simp) (by rfl) (by rfl)
    rw [h1]
    have e : (exC5w.drop (exC5w.length - 10)).reverse =
        [] ++ (asstMsg "API Error: 403 Forbidden\nmore text") :: [userMsg "run it"] := by
      rfl
    rw [e]
    exact h2
  · exact C5_error_extraction_four_patterns.2.2.2.1 "request timeout" (by decide)

/-- Claim C6 (amended): when the assembled summary has status `error`,
its `stats` field is exactly the error-message extraction's result —
possibly the empty string when no pattern of the extraction family
matches (not a non-empty fixed generic string; the fixed generic string
`任务执行出错` is used as the `query` fallback instead). In particular
`stats` is never a success-style statistics string when status is
`error`. -/
theorem C6_error_stats_is_extraction (f : FileState) (r : List (String × String))
    (hg : generate_summary f = some r) (hs : assocS r "status" = some "error") :
    ∃ msgs tools fm bc tm em,
      parse_transcript f = some (.ok msgs tools fm bc tm "error") ∧
      get_error_message msgs = some em ∧ assocS r "stats" = some em := by
  have hg2 : ((parse_transcript f).bind fun data =>
      match data with
      | .err _ => some [("status", "success"), ("summary", "任务完成")]
      | .ok messages tools _ _ _ status =>
          (extract_user_query messages).bind fun query =>
            if status = "error" then
              (get_error_message messages).bind fun error_msg =>
                some [("status", "error"),
                  ("query", if (if query ≠ "" then capDots 60 query else "") ≠ "" then
                    (if query ≠ "" then capDots 60 query else "") else "任务执行出错"),
                  ("stats", if error_msg ≠ "" then error_msg else "")]
            else if status = "action_needed" then
              some [("status", "action_needed"),
                ("query", if query ≠ "" then capDots 60 query else "需要用户操作"),
                ("stats", "")]
            else
              some [("status", "success"),
                ("query", if query ≠ "" then capDots 60 query else "任务完成"),
                ("stats",
                  if ((if countOf tools (.str "Edit") + countOf tools (.str "Write") > 0 then
                        ["改" ++ toString (countOf tools (.str "Edit") +
                          countOf tools (.str "Write")) ++ "文件"] else []) ++
                      (if countOf tools (.str "Bash") > 0 then
                        ["执行" ++ toString (countOf tools (.str "Bash")) ++ "命令"] else []) ++
                      (if countOf tools (.str "Read") > 0 then
                        ["读" ++ toString (countOf tools (.str "Read")) ++ "文件"] else []) ++
                      (if calculate_duration messages ≠ "" then
                        ["耗时" ++ calculate_duration messages] else [])) ≠ [] then
                    " · ".intercalate
                      ((if countOf tools (.str "Edit") + countOf tools (.str "Write") > 0 then
                        ["改" ++ toString (countOf tools (.str "Edit") +
                          countOf tools (.str "Write")) ++ "文件"] else []) ++
                      (if countOf tools (.str "Bash") > 0 then
                        ["执行" ++ toString (countOf tools (.str "Bash")) ++ "命令"] else []) ++
                      (if countOf tools (.str "Read") > 0 then
                        ["读" ++ toString (countOf tools (.str "Read")) ++ "文件"] else []) ++
                      (if calculate_duration messages ≠ "" then
                        ["耗时" ++ calculate_duration messages] else []))
                  else "")]) = some r := hg
  cases hp : parse_transcript f with
  | none => rw [hp] at hg2; exact absurd hg2 (by simp)
  | some data =>
      rw [hp] at hg2
      cases data with
      | err e =>
          simp only [Option.some_bind] at hg2
          injection hg2 with hg3
          rw [← hg3] at hs
          exact absurd hs (by simp [assocS])
      | ok messages tools fm bc tm status =>
          simp only [Option.some_bind] at hg2
          cases hq : extract_user_query messages with
          | none => rw [hq] at hg2; exact absurd hg2 (by simp)
          | some query =>
              rw [hq] at hg2
              simp only [Option.some_bind] at hg2
              by_cases hst : status = "error"
              · rw [if_pos hst] at hg2
                cases hem : get_error_message messages with
                | none => rw [hem] at hg2; exact absurd hg2 (by simp)
                | some em =>
                    rw [hem] at hg2
                    simp only [Option.some_bind, Option.some.injEq] at hg2
                    refine ⟨messages, tools, fm, bc, tm, em, by rw [hst], hem, ?_⟩
                    rw [← hg2]
                    by_cases hem2 : em = ""
                    · simp [assocS, hem2]
                    · simp [assocS, hem2]
              · rw [if_neg hst] at hg2
                by_cases han : status = "action_needed"
                · rw [if_pos han] at hg2
                  injection hg2 with hg3
                  rw [← hg3] at hs
                  exact absurd hs (by simp [assocS])
                · rw [if_neg han] at hg2
                  injection hg2 with hg3
                  rw [← hg3] at hs
                  exact absurd hs (by simp [assocS])

/-- Witness for C6 (amended): the C6 transcript parses to status
`error` with an empty extraction, and the assembled `stats` is that
empty extraction. -/
theorem C6_error_stats_is_extraction_witness :
    ∃ msgs tools fm bc tm em,
      parse_transcript (.content exC6) = some (.ok msgs tools fm bc tm "error") ∧
      get_error_message msgs = some em ∧
      assocS [("status", "error"), ("query", "run the build now"), ("stats", "")] "stats" =
        some em :=
  C6_error_stats_is_extraction (.content exC6)
    [("status", "error"), ("query", "run the build now"), ("stats", "")] (by rfl) (by rfl)

/-- Unfolding of `strip` as the right-strip of the left-strip. -/
theorem stripL_eq_rdropWhile (cs : List Char) :
    stripL cs = List.rdropWhile isPyWs (cs.dropWhile isPyWs) := rfl

/-- A fixed point of `strip` is a fixed point of both one-sided strips. -/
theorem stripL_self_parts (u : List Char) (h : stripL u = u) :
    u.dropWhile isPyWs = u ∧ List.rdropWhile isPyWs u = u := by
  have hdsuf : u.dropWhile isPyWs <:+ u := List.dropWhile_suffix _
  have hrpre : List.rdropWhile isPyWs (u.dropWhile isPyWs) <+: u.dropWhile isPyWs :=
    List.rdropWhile_prefix _ _
  rw [stripL_eq_rdropWhile] at h
  have hlen : u.length ≤ (u.dropWhile isPyWs).length := by
    calc u.length = (List.rdropWhile isPyWs (u.dropWhile isPyWs)).length := by rw [h]
    _ ≤ (u.dropWhile isPyWs).length := hrpre.length_le
  have hdrop : u.dropWhile isPyWs = u := hdsuf.eq_of_length_le hlen
  rw [hdrop] at h
  exact ⟨hdrop, h⟩

/-- Idempotence of `strip`. -/
theorem stripL_idem (cs : List Char) : stripL (stripL cs) = stripL cs := by
  rw [stripL_eq_rdropWhile (stripL cs)]
  have hd : (stripL cs).dropWhile isPyWs = stripL cs := by
    cases hsc : stripL cs with
    | nil => rfl
    | cons c rest =>
        obtain ⟨t, hZ⟩ := List.rdropWhile_prefix isPyWs (cs.dropWhile isPyWs)
        rw [stripL_eq_rdropWhile] at hsc
        rw [hsc] at hZ
        have hh : (cs.dropWhile isPyWs).head? = some c := by
          rw [← hZ]; rfl
        have hnot : isPyWs c = false := by
          have h0 := List.head?_dropWhile_not isPyWs cs
          rw [hh] at h0
          exact h0
        exact List.dropWhile_cons_of_neg (by simp [hnot])
  rw [hd, stripL_eq_rdropWhile cs]
  exact List.rdropWhile_idempotent _ _

/-- The head of a non-empty strip fixed point is not whitespace. -/
theorem stripL_head_not_ws (c : Char) (rest : List Char)
    (h : stripL (c :: rest) = c :: rest) : isPyWs c = false := by
  have hdrop := (stripL_self_parts (c :: rest) h).1
  by_contra hc
  rw [Bool.not_eq_false] at hc
  rw [List.dropWhile_cons_of_pos hc] at hdrop
  have hle : (List.dropWhile isPyWs rest).length ≤ rest.length :=
    (List.dropWhile_suffix (l := rest) isPyWs).length_le
  have h2 := congrArg List.length hdrop
  simp only [List.length_cons] at h2
  omega

/-- Truncation with the ellipsis marker keeps a stripped string
stripped and never exceeds 83 characters. -/
theorem capDots_strip (u : String) (hself : stripL u.data = u.data) (hne : u.data ≠ []) :
    pyStrip (capDots 80 u) = capDots 80 u ∧ (capDots 80 u).data.length ≤ 83 ∧
      capDots 80 u ≠ "" := by
  obtain ⟨c, rest, hcr⟩ : ∃ c rest, u.data = c :: rest := by
    cases hu : u.data with
    | nil => exact absurd hu hne
    | cons a t => exact ⟨a, t, rfl⟩
  by_cases hbig : 80 < u.data.length
  · have hres : (capDots 80 u).data = u.data.take 80 ++ ['.', '.', '.'] := by
      simp only [capDots, if_pos hbig, String.data_append]
    have hhead : (capDots 80 u).data = c :: (rest.take 79 ++ ['.', '.', '.']) := by
      rw [hres, hcr, List.take_succ_cons]; rfl
    have hcws : isPyWs c = false := stripL_head_not_ws c rest (by rw [← hcr]; exact hself)
    constructor
    · apply String.ext
      show stripL (capDots 80 u).data = (capDots 80 u).data
      rw [stripL_eq_rdropWhile]
      have hd : (capDots 80 u).data.dropWhile isPyWs = (capDots 80 u).data := by
        rw [hhead]
        exact List.dropWhile_cons_of_neg (by simp [hcws])
      rw [hd]
      have hsplit : (capDots 80 u).data = (u.data.take 80 ++ ['.', '.']) ++ ['.'] := by
        rw [hres]; simp
      rw [hsplit]
      exact List.rdropWhile_concat_neg _ _ '.' (by decide)
    constructor
    · rw [hres]
      have hta : (u.data.take 80).length ≤ 80 := List.length_take_le 80 u.data
      simp only [List.length_append, List.length_cons, List.length_nil]
      omega
    · intro he
      have hdata := congrArg String.data he
      rw [hhead] at hdata
      simp at hdata
  · have hres : capDots 80 u = u := by
      unfold capDots
      rw [if_neg hbig]
    refine ⟨?_, ?_, ?_⟩
    · rw [hres]
      apply String.ext
      exact hself
    · rw [hres]
      omega
    · rw [hres]
      intro he
      rw [he] at hcr
      exact absurd hcr (by simp)

/-- The query walk only ever returns the empty string or a stripped
string of at most 83 characters. -/
theorem euqGo_bounds (l : List Obj) (q : String)
    (h : euqGo l = some q) (hq : q ≠ "") :
    q.data.length ≤ 83 ∧ pyStrip q = q := by
  induction l with
  | nil =>
      injection h with h2
      exact absurd h2.symm hq
  | cons m rest ih =>
      simp only [euqGo] at h
      by_cases huser : jGetD m "type" .null = .str "user"
      · rw [if_pos huser] at h
        cases hdc : dualContent m with
        | none => rw [hdc] at h; exact absurd h (by simp)
        | some content =>
            rw [hdc] at h
            simp only [Option.bind_eq_bind, Option.some_bind] at h
            by_cases hce : content = ""
            · rw [if_pos hce] at h; exact ih h
            · rw [if_neg hce] at h
              by_cases hskp : pyLower (pyStrip content) ∈ skip_commands
              · rw [if_pos hskp] at h; exact ih h
              · rw [if_neg hskp] at h
                by_cases hlen : (pyStrip content).data.length < 5
                · rw [if_pos hlen] at h; exact ih h
                · rw [if_neg hlen] at h
                  by_cases hpunct :
                      pyStrip content ∈ (["...", "。。。", "???", "！！！"] : List String)
                  · rw [if_pos hpunct] at h; exact ih h
                  · rw [if_neg hpunct] at h
                    by_cases hfl : (pyStrip
                        (⟨(pyStrip content).data.takeWhile (fun ch => ch ≠ '\n')⟩ :
                          String)).data.length > 5
                    · rw [if_pos hfl] at h
                      injection h with h2
                      rw [← h2]
                      have hself : stripL (pyStrip
                          (⟨(pyStrip content).data.takeWhile (fun ch => ch ≠ '\n')⟩ :
                            String)).data =
                          (pyStrip (⟨(pyStrip content).data.takeWhile
                            (fun ch => ch ≠ '\n')⟩ : String)).data := stripL_idem _
                      have hne : (pyStrip (⟨(pyStrip content).data.takeWhile
                          (fun ch => ch ≠ '\n')⟩ : String)).data ≠ [] := by
                        intro he
                        rw [he] at hfl
                        simp at hfl
                      obtain ⟨hs1, hs2, _⟩ := capDots_strip _ hself hne
                      exact ⟨hs2, hs1⟩
                    · rw [if_neg hfl] at h
                      injection h with h2
                      rw [← h2]
                      have hself : stripL (pyStrip content).data =
                          (pyStrip content).data := stripL_idem _
                      have hne : (pyStrip content).data ≠ [] := by
                        intro he
                        rw [he] at hlen
                        simp at hlen
                      obtain ⟨hs1, hs2, _⟩ := capDots_strip _ hself hne
                      exact ⟨hs2, hs1⟩
      · rw [if_neg huser] at h
        exact ih h

/-- Claim C7 (amended): the string returned by `extract_user_query`,
when non-empty, has length at most 83 characters — 80 plus the
3-character ellipsis marker appended on truncation, not 80 as claimed —
before the separate 60-character re-truncation
applied at summary-assembly time, and has no leading or trailing
whitespace (it is a fixed point of `strip`). -/
theorem C7_query_length_and_strip (msgs : List Obj) (q : String)
    (h : extract_user_query msgs = some q) (hq : q ≠ "") :
    q.data.length ≤ 83 ∧ pyStrip q = q :=
  euqGo_bounds msgs.reverse q h hq

/-- Witness for C7 (amended) on a one-record transcript. -/
theorem C7_query_length_and_strip_witness :
    ("fix the login bug" : String).data.length ≤ 83 ∧
      pyStrip "fix the login bug" = "fix the login bug" :=
  C7_query_length_and_strip [userMsg "fix the login bug"] "fix the login bug"
    (by rfl) (by decide)

/-- Claim C8: the duration string is empty whenever there are fewer
than 2 records, no user record exists, either relevant timestamp is
missing / non-string / unparsable (or the pair mixes offset-aware and
offset-naive instants, which also fails to subtract) — all captured by
`elapsedSecs = none` — or the elapsed whole seconds are negative, under
5, or over 3600; otherwise it is `{m}分{s}秒` when the minutes part is
positive and `{s}秒` otherwise. -/
theorem C8_duration_characterization (msgs : List Obj) :
    (msgs.length < 2 → calculate_duration msgs = "") ∧
    (lastUserRev msgs.reverse = none → calculate_duration msgs = "") ∧
    (elapsedSecs msgs = none → calculate_duration msgs = "") ∧
    (∀ n : Int, elapsedSecs msgs = some n → (n < 0 ∨ n < 5 ∨ 3600 < n) →
      calculate_duration msgs = "") ∧
    (∀ n : Int, 2 ≤ msgs.length → elapsedSecs msgs = some n → 5 ≤ n → n ≤ 3600 →
      calculate_duration msgs = fmtDuration n.toNat) ∧
    (∀ k : Nat, fmtDuration k =
      if k / 60 > 0 then toString (k / 60) ++ "分" ++ toString (k % 60) ++ "秒"
      else toString (k % 60) ++ "秒") := by
  have hunfold : ∀ (n : Int), ¬ msgs.length < 2 → elapsedSecs msgs = some n →
      calculate_duration msgs =
        if (decide (n < 0) || decide (n > 3600)) = true then ""
        else if n < 5 then "" else fmtDuration n.toNat := by
    intro n hl hn
    unfold calculate_duration
    rw [if_neg hl, hn]
  refine ⟨?_, ?_, ?_, ?_, ?_, fun k => by unfold fmtDuration; rfl⟩
  · intro h
    simp [calculate_duration, h]
  · intro h
    have he : elapsedSecs msgs = none := by
      have e : elapsedSecs msgs = (lastUserRev msgs.reverse).bind (fun d =>
          (fun ts1 ts2 =>
            if truthy ts1 && truthy ts2 then
              match ts1, ts2 with
              | .str a, .str b =>
                  (parseIso ⟨replaceZ a.data⟩).bind fun startT =>
                    (parseIso ⟨replaceZ b.data⟩).bind fun endT =>
                      (tsDiffUs endT startT).bind fun us => some (truncSecs us)
              | _, _ => none
            else none)
          (jGetD ((msgs.reverse.drop d).headD []) "timestamp" (.str ""))
          (jGetD (msgs.reverse.headD []) "timestamp" (.str ""))) := rfl
      rw [e, h]
      rfl
    by_cases hl : msgs.length < 2 <;> simp [calculate_duration, hl, he]
  · intro he
    by_cases hl : msgs.length < 2 <;> simp [calculate_duration, hl, he]
  · intro n hn hbad
    by_cases hl : msgs.length < 2
    · simp [calculate_duration, hl]
    · rw [hunfold n hl hn]
      by_cases h2 : n < 0
      · rw [if_pos (by simp [h2])]
      · by_cases h3 : n > 3600
        · rw [if_pos (by simp [h3])]
        · have h4 : n < 5 := by omega
          rw [if_neg (by simp [h2, h3]), if_pos h4]
  · intro n h2 hn h5 h3600
    have hl : ¬ msgs.length < 2 := by omega
    rw [hunfold n hl hn]
    have hb1 : ¬ n < 0 := by omega
    have hb2 : ¬ n > 3600 := by omega
    have hb3 : ¬ n < 5 := by omega
    rw [if_neg (by simp [hb1, hb2]), if_neg (by simp [hb3])]

/-- Witness for C8 at a 75-second transcript. -/
theorem C8_duration_characterization_witness :
    calculate_duration exC8 = "1分15秒" := by
  have h := (C8_duration_characterization exC8).2.2.2.2.1 75 (by decide) (by rfl)
    (by decide) (by decide)
  rw [h]
  rfl

end ClaudeBell
